import Mathlib

/-!
Verification of the OpenUriInBrowser plugin core against its specification.

The development shallowly embeds the plugin's Python sources:
  plugin/ui/image.py          (color codec and PNG recoloring engine)
  plugin/renderer.py          (periodic rendering scheduler)
  plugin/ui/region_drawing.py (overlay layer erase/draw)

Strings are embedded as `List Char`, Python ints as `Nat` (all values in the
verified paths are nonnegative), raised exceptions as `Except.error`, and the
decoded PNG pixel grid (produced by the external `png` library) as an explicit
structure of rows of channel values.
-/

/-! ### Color codec (plugin/ui/image.py) -/

/-- Decidable test for a hexadecimal digit, the character class `[0-9a-fA-F]`
used by the regexes in `color_code_to_rgba` and `change_png_bytes_color`. -/
def is_hex_char (c : Char) : Bool :=
  decide ((48 ≤ c.toNat ∧ c.toNat ≤ 57) ∨ (97 ≤ c.toNat ∧ c.toNat ≤ 102)
    ∨ (65 ≤ c.toNat ∧ c.toNat ≤ 70))

/-- Decidable test for a lowercase hexadecimal digit `[0-9a-f]`; used to state
that normalized colors are lowercase. -/
def is_lower_hex_char (c : Char) : Bool :=
  decide ((48 ≤ c.toNat ∧ c.toNat ≤ 57) ∨ (97 ≤ c.toNat ∧ c.toNat ≤ 102))

/-- Numeric value of one hexadecimal digit (0 on a non-digit; the callers only
apply it to validated digits, as Python `int(s, 16)` raises otherwise). -/
def hex_char_val (c : Char) : Nat :=
  if 48 ≤ c.toNat ∧ c.toNat ≤ 57 then c.toNat - 48
  else if 97 ≤ c.toNat ∧ c.toNat ≤ 102 then c.toNat - 87
  else if 65 ≤ c.toNat ∧ c.toNat ≤ 70 then c.toNat - 55
  else 0

/-- Embedding of Python `int(s, 16)` on validated digit strings. -/
def parse_hex (l : List Char) : Nat :=
  l.foldl (fun acc c => acc * 16 + hex_char_val c) 0

/-- Lowercase hexadecimal digit character for a value below 16. -/
def hex_digit_char (d : Nat) : Char :=
  if d < 10 then Char.ofNat (48 + d) else Char.ofNat (87 + d)

/-- Lowercase hexadecimal digit string of a number, without leading zeros
(one digit for numbers below 16). -/
def hex_repr (n : Nat) : List Char :=
  if n < 16 then [hex_digit_char n]
  else hex_repr (n / 16) ++ [hex_digit_char (n % 16)]
decreasing_by exact Nat.div_lt_self (by omega) (by omega)

/-- Embedding of the Python format specifier `08x`: lowercase hexadecimal,
left-padded with zeros to at least eight characters. -/
def format08x (n : Nat) : List Char :=
  List.replicate (8 - (hex_repr n).length) '0' ++ hex_repr n

/-- Embedding of Python `str.lower` (all strings in the verified paths are
ASCII, where `Char.toLower` agrees with Python). -/
def py_lower (l : List Char) : List Char :=
  l.map Char.toLower

/-- Embedding of `add_alpha_to_rgb` (image.py lines 134-155).  A raised
`ValueError` is embedded as `Except.error`. -/
def add_alpha_to_rgb (color_code : List Char) : Except String (List Char) :=
  let rgb := (color_code.dropWhile (fun ch => ch == '#')).take 8
  if rgb = [] then .ok []
  else if rgb.length = 8 then .ok (py_lower ('#' :: rgb))
  else
    let rgb2 := if rgb.length = 3 then
        [rgb.getD 0 ' ', rgb.getD 0 ' ', rgb.getD 1 ' ', rgb.getD 1 ' ',
         rgb.getD 2 ' ', rgb.getD 2 ' ']
      else rgb
    if rgb2.length = 6 then .ok (py_lower ('#' :: (rgb2.take 6 ++ ['f', 'f'])))
    else .error "Invalid RGB/RGBA color code"

/-- The literal string `"@scope"`. -/
def at_scope : List Char := ['@', 's', 'c', 'o', 'p', 'e']

/-- The literal string `"@scope_inverted"`. -/
def at_scope_inverted : List Char :=
  ['@', 's', 'c', 'o', 'p', 'e', '_', 'i', 'n', 'v', 'e', 'r', 't', 'e', 'd']

/-- The `@scope_inverted` branch of `color_code_to_rgba` (image.py lines
180-184): `int(f"{color}ff"[1:9], 16)`, then `(~n & 0xFFFFFF00) | (n & 0xFF)`
formatted as `#%08x`.  The parsed value `n` is below `16^8 = 2^32` (at most 8
digits are taken), so Python's `~n & 0xFFFFFF00` on the unbounded int equals
`(0xFFFFFFFF - n) &&& 0xFFFFFF00` on `Nat`. -/
def scope_inverted_color (color : List Char) : List Char :=
  let rgba_int := parse_hex (((color ++ ['f', 'f']).drop 1).take 8)
  '#' :: format08x ((0xFFFFFFFF - rgba_int) &&& 0xFFFFFF00 ||| (rgba_int &&& 0xFF))

/-- Shallow embedding of `re.match(r"[0-9a-fA-F]+$", rgb)` (image.py line
191): at least one hex digit from the start of the string, where Python's
`$` (without MULTILINE) matches at the end of the string or just before a
single newline at the end.  So the regex matches exactly the nonempty
all-hex strings and the strings of one or more hex digits followed by one
final newline. -/
def matches_hex_dollar (l : List Char) : Bool :=
  (!l.isEmpty && l.all is_hex_char)
  || (l.getLast? == some '\n' && !l.dropLast.isEmpty && l.dropLast.all is_hex_char)

/-- Embedding of the undecorated `color_code_to_rgba` (image.py lines
158-194).  The host editor's theme lookup
`view.style_for_scope(...).get("foreground", "")` is an external collaborator;
it is passed in as the explicit argument `scope_color` (an active view is
assumed to exist, matching the spec's interface `foregroundColorAt`). -/
def color_code_to_rgba_raw (color_code scope_color : List Char) : List Char :=
  match color_code with
  | [] => []
  | c :: rest =>
    if c ≠ '#' then
      if color_code = at_scope then scope_color
      else if color_code = at_scope_inverted then scope_inverted_color scope_color
      else []
    else
      let rgb := rest.take 8
      if (rgb.length = 3 ∨ rgb.length = 6 ∨ rgb.length = 8)
          ∧ matches_hex_dollar rgb = true then
        '#' :: rgb
      else []

/-- Modelled from the spec: the decorator `simple_decorator(add_alpha_to_rgb)`
applied to `color_code_to_rgba` lives in `plugin/utils.py`, which is not part
of the sources here; per the spec's ColorCodec contract ("Output always
lowercase 8-digit hex"), it post-composes `add_alpha_to_rgb` onto the return
value of `color_code_to_rgba`.  This function is the resulting normalization
pipeline. -/
def normalize_color (color_code scope_color : List Char) : Except String (List Char) :=
  add_alpha_to_rgb (color_code_to_rgba_raw color_code scope_color)

/-! ### Basic character lemmas -/

lemma hex_char_ne_hash {c : Char} (h : is_hex_char c = true) : ¬(c = '#') := by
  intro he
  subst he
  simp [is_hex_char] at h

lemma hex_char_beq_hash {c : Char} (h : is_hex_char c = true) : (c == '#') = false := by
  cases hb : (c == '#') with
  | false => rfl
  | true => exact absurd (eq_of_beq hb) (hex_char_ne_hash h)

/-- C5 helper: `dropWhile` of the hash test on a list headed by a hex digit. -/
lemma dropWhile_hash_cons_hex {c : Char} (h : is_hex_char c = true) (l : List Char) :
    (c :: l).dropWhile (fun ch => ch == '#') = c :: l := by
  simp [List.dropWhile, hex_char_beq_hash h]

/-- A nonempty all-hex string passes the `[0-9a-fA-F]+$` check. -/
lemma matches_hex_dollar_of_all (l : List Char) (hne : l ≠ [])
    (h : l.all is_hex_char = true) : matches_hex_dollar l = true := by
  rw [matches_hex_dollar]
  have hie : l.isEmpty = false := by
    cases l with
    | nil => exact absurd rfl hne
    | cons a t => rfl
  rw [hie, h]
  rfl

/-- Reduction of `color_code_to_rgba_raw` on a `#`-prefixed code whose digits
pass the length and hex checks. -/
lemma ccr_hash_valid (rest sc : List Char)
    (hlen : rest.length = 3 ∨ rest.length = 6 ∨ rest.length = 8)
    (hhex : rest.all is_hex_char = true) :
    color_code_to_rgba_raw ('#' :: rest) sc = '#' :: rest := by
  have hle : rest.length ≤ 8 := by omega
  have htake : rest.take 8 = rest := List.take_of_length_le hle
  have hne : rest ≠ [] := by
    intro hnil
    rw [hnil] at hlen
    simp at hlen
  simp only [color_code_to_rgba_raw]
  rw [if_neg (by simp), htake, if_pos]
  exact ⟨hlen, matches_hex_dollar_of_all rest hne hhex⟩

/-- Reduction of `add_alpha_to_rgb` on a `#`-prefixed 3-hex-digit code. -/
lemma add_alpha_len3 (a b c : Char) (ha : is_hex_char a = true) :
    add_alpha_to_rgb ['#', a, b, c] =
      .ok ['#', a.toLower, a.toLower, b.toLower, b.toLower,
           c.toLower, c.toLower, 'f', 'f'] := by
  have h0 : (('#' : Char) == '#') = true := by decide
  have h1 : (a == '#') = false := hex_char_beq_hash ha
  have h2 : Char.toLower '#' = '#' := rfl
  have h3 : Char.toLower 'f' = 'f' := rfl
  simp [add_alpha_to_rgb, py_lower, h0, h1, h2, h3]

/-- Reduction of `add_alpha_to_rgb` on a `#`-prefixed 6-hex-digit code. -/
lemma add_alpha_len6 (a b c d e f : Char) (ha : is_hex_char a = true) :
    add_alpha_to_rgb ['#', a, b, c, d, e, f] =
      .ok ['#', a.toLower, b.toLower, c.toLower, d.toLower, e.toLower,
           f.toLower, 'f', 'f'] := by
  have h0 : (('#' : Char) == '#') = true := by decide
  have h1 : (a == '#') = false := hex_char_beq_hash ha
  have h2 : Char.toLower '#' = '#' := rfl
  have h3 : Char.toLower 'f' = 'f' := rfl
  simp [add_alpha_to_rgb, py_lower, h0, h1, h2, h3]

/-- Reduction of `add_alpha_to_rgb` on a `#`-prefixed 8-hex-digit code. -/
lemma add_alpha_len8 (a b c d e f g h : Char) (ha : is_hex_char a = true) :
    add_alpha_to_rgb ['#', a, b, c, d, e, f, g, h] =
      .ok ['#', a.toLower, b.toLower, c.toLower, d.toLower, e.toLower,
           f.toLower, g.toLower, h.toLower] := by
  have h0 : (('#' : Char) == '#') = true := by decide
  have h1 : (a == '#') = false := hex_char_beq_hash ha
  have h2 : Char.toLower '#' = '#' := rfl
  simp [add_alpha_to_rgb, py_lower, h0, h1, h2]

/-- C5: for every input consisting of `#` followed by exactly 3, 6, or 8 hex
digits, normalization returns the lowercase 8-digit canonical form: a 3-digit
input has each digit doubled and `ff` appended, a 6-digit input has `ff`
appended, and an 8-digit input is passed through lowercased; the empty input
normalizes to the empty output. -/
theorem c5_normalize_valid_hex (sc : List Char) :
    normalize_color [] sc = .ok []
    ∧ (∀ a b c : Char, is_hex_char a = true → is_hex_char b = true →
        is_hex_char c = true →
        normalize_color ['#', a, b, c] sc =
          .ok ['#', a.toLower, a.toLower, b.toLower, b.toLower,
               c.toLower, c.toLower, 'f', 'f'])
    ∧ (∀ a b c d e f : Char, is_hex_char a = true → is_hex_char b = true →
        is_hex_char c = true → is_hex_char d = true → is_hex_char e = true →
        is_hex_char f = true →
        normalize_color ['#', a, b, c, d, e, f] sc =
          .ok ['#', a.toLower, b.toLower, c.toLower, d.toLower, e.toLower,
               f.toLower, 'f', 'f'])
    ∧ (∀ a b c d e f g h : Char, is_hex_char a = true → is_hex_char b = true →
        is_hex_char c = true → is_hex_char d = true → is_hex_char e = true →
        is_hex_char f = true → is_hex_char g = true → is_hex_char h = true →
        normalize_color ['#', a, b, c, d, e, f, g, h] sc =
          .ok ['#', a.toLower, b.toLower, c.toLower, d.toLower, e.toLower,
               f.toLower, g.toLower, h.toLower]) := by
  refine ⟨rfl, ?_, ?_, ?_⟩
  · intro a b c ha hb hc
    unfold normalize_color
    rw [ccr_hash_valid [a, b, c] sc (by simp) (by simp [ha, hb, hc])]
    exact add_alpha_len3 a b c ha
  · intro a b c d e f ha hb hc hd he hf
    unfold normalize_color
    rw [ccr_hash_valid [a, b, c, d, e, f] sc (by simp) (by simp [ha, hb, hc, hd, he, hf])]
    exact add_alpha_len6 a b c d e f ha
  · intro a b c d e f g h ha hb hc hd he hf hg hh
    unfold normalize_color
    rw [ccr_hash_valid [a, b, c, d, e, f, g, h] sc (by simp)
      (by simp [ha, hb, hc, hd, he, hf, hg, hh])]
    exact add_alpha_len8 a b c d e f g h ha

/-- C5 witness: one of the spec's worked examples, obtained from the theorem
at a concrete input. -/
theorem c5_normalize_valid_hex_witness :
    normalize_color ['#', 'A', 'B', 'c'] [] =
      .ok ['#', 'a', 'a', 'b', 'b', 'c', 'c', 'f', 'f'] := by
  have h := (c5_normalize_valid_hex []).2.1 'A' 'B' 'c' (by decide) (by decide) (by decide)
  exact h.trans rfl

/-- C3 counterexample: `normalize("#12345")` does NOT signal an error; the
pipeline returns the empty color (the "feature off" value) as a normal
result, because `color_code_to_rgba` filters the bad code to `""` before
`add_alpha_to_rgb` ever sees it. -/
theorem c3_counter_no_error :
    normalize_color ['#', '1', '2', '3', '4', '5'] [] = .ok [] := rfl

/-- C3 (amended): for every `#`-prefixed input whose first 8 characters
after the `#` fail the source's validation — a count of 3, 6, or 8 together
with the regex `[0-9a-fA-F]+$` (one or more hex digits, where Python's `$`
also accepts one final trailing newline) — color normalization returns the
empty string as a normal result (feature disabled), not an error. -/
theorem c3_invalid_hash_empty (sc cs : List Char)
    (hcond : ¬(((cs.take 8).length = 3 ∨ (cs.take 8).length = 6 ∨
        (cs.take 8).length = 8)
      ∧ matches_hex_dollar (cs.take 8) = true)) :
    normalize_color ('#' :: cs) sc = .ok [] := by
  unfold normalize_color
  have hc : color_code_to_rgba_raw ('#' :: cs) sc = [] := by
    simp only [color_code_to_rgba_raw]
    rw [if_neg (by simp), if_neg hcond]
  rw [hc]
  rfl

/-- C3 witness: a `#`-prefixed input with a non-hex digit, through the
amended theorem. -/
theorem c3_invalid_hash_empty_witness :
    normalize_color ['#', '1', '2', 'g'] [] = .ok [] :=
  c3_invalid_hash_empty [] ['1', '2', 'g'] (by decide)

/-! ### Rendering scheduler (plugin/renderer.py) -/

/-- The plugin settings read by `RendererThread._update_view` and
`_detect_uris_globally`.  `show_open_button_always` models
`get_setting_show_open_button(view) == "always"` and
`draw_uri_regions_always` models
`get_setting("draw_uri_regions.enabled") == "always"`. -/
structure PluginSettings where
  work_for_transient_view : Bool
  show_open_button_always : Bool
  draw_uri_regions_always : Bool
deriving DecidableEq

/-- The per-view state observable by the scheduler.  The first five flags
model the external predicates `is_processable_view`, `view_is_dirty_val`,
`is_view_typing`, `is_transient_view` and `is_view_too_large`;
`has_phantoms` / `has_uri_regions` model the two overlay layers
(`update_phantom_set` / `erase_phantom_set` and `view.add_regions` /
`view.erase_regions("OUIB_uri_regions")` in region_drawing.py);
`scan_raises` models `view_find_all` raising an exception for this view
(a scan failure). -/
structure ViewState where
  vid : Nat
  processable : Bool
  dirty : Bool
  typing : Bool
  transient : Bool
  too_large : Bool
  has_phantoms : Bool
  has_uri_regions : Bool
  scan_raises : Bool
deriving DecidableEq

/-- Embedding of `RendererThread._update_view` (renderer.py lines 38-54)
together with `_detect_uris_globally` (lines 56-77).  The returned `Bool` is
true iff pattern detection (`view_find_all`) was run on the view.  An
uncaught exception is `Except.error`; it leaves the view unchanged (in
particular its dirty flag), since the scan is the first statement of
`_detect_uris_globally` and `view_is_dirty_val(view, False)` comes after. -/
def update_view (st : PluginSettings) (v : ViewState) : Except Unit (ViewState × Bool) :=
  if v.processable = false ∨ v.dirty = false ∨ v.typing = true
      ∨ (v.transient = true ∧ st.work_for_transient_view = false) then
    .ok (v, false)
  else if v.too_large = true then
    .ok ({ v with has_phantoms := false, has_uri_regions := false, dirty := false }, false)
  else if v.scan_raises = true then
    .error ()
  else
    .ok ({ v with has_phantoms := st.show_open_button_always,
                  has_uri_regions := st.draw_uri_regions_always,
                  dirty := false }, true)

/-- The `for view in foreground_views(): self._update_view(view)` loop of
`_update_foreground_views`.  Returns the resulting view states, the ids of
the views on which `_update_view` was invoked, and whether the loop ran to
completion (false when a view raised: the exception propagates, so the
remaining views are left untouched). -/
def run_views (st : PluginSettings) : List ViewState → List ViewState × List Nat × Bool
  | [] => ([], [], true)
  | v :: vs =>
    match update_view st v with
    | .error _ => (v :: vs, [v.vid], false)
    | .ok (v2, _) =>
      match run_views st vs with
      | (vs2, ids, ok) => (v2 :: vs2, v.vid :: ids, ok)

/-- The scheduler state: the `is_rendering` flag of `RendererThread` plus the
current foreground views. -/
structure SchedulerState where
  is_rendering : Bool
  views : List ViewState
deriving DecidableEq

/-- Embedding of one timer callback `_update_foreground_views` (renderer.py
lines 29-36).  Returns the new state and the ids of the views processed this
tick.  If the per-view loop raises, the trailing
`self.is_rendering = False` is never executed, so the flag stays true. -/
def tick (st : PluginSettings) (s : SchedulerState) : SchedulerState × List Nat :=
  if s.is_rendering then (s, [])
  else
    let r := run_views st s.views
    ({ is_rendering := !r.2.2, views := r.1 }, r.2.1)

/-- The state reached after one tick (discarding the processed-ids trace). -/
def tick_state (st : PluginSettings) (s : SchedulerState) : SchedulerState :=
  (tick st s).1

/-- Helper: a tick that starts while `is_rendering` is set changes nothing
and processes no view. -/
lemma tick_stuck (st : PluginSettings) (s : SchedulerState)
    (h : s.is_rendering = true) : tick st s = (s, []) := by
  simp [tick, h]

/-- C4: if a scheduler tick fires while a previous tick's scan pass is still
in progress (`is_rendering` set), the new tick performs zero view processing
and returns the state unchanged, so at most one scan pass is in flight. -/
theorem c4_single_flight (st : PluginSettings) (s : SchedulerState)
    (h : s.is_rendering = true) : tick st s = (s, []) :=
  tick_stuck st s h

/-- C4 witness: a concrete in-progress state with an eligible dirty view is
left untouched by a new tick. -/
theorem c4_single_flight_witness :
    tick ⟨true, true, true⟩
        ⟨true, [⟨7, true, true, false, false, false, false, false, false⟩]⟩ =
      (⟨true, [⟨7, true, true, false, false, false, false, false, false⟩]⟩, []) :=
  c4_single_flight ⟨true, true, true⟩
    ⟨true, [⟨7, true, true, false, false, false, false, false, false⟩]⟩ rfl

/-- The view state produced by one successful `_update_view` call (identity
on a view whose call raised; only used for views that did not raise). -/
def ok_view (st : PluginSettings) (v : ViewState) : ViewState :=
  match update_view st v with
  | .ok (v2, _) => v2
  | .error _ => v

/-- Helper: the per-view loop up to and including the first raising view.
Views before it are updated, the raising view and everything after it are
left untouched, and the loop reports failure. -/
lemma run_views_split (st : PluginSettings) (pre : List ViewState) (v : ViewState)
    (post : List ViewState)
    (hpre : ∀ u ∈ pre, ∃ r, update_view st u = .ok r)
    (hv : update_view st v = .error ()) :
    run_views st (pre ++ v :: post) =
      (pre.map (ok_view st) ++ v :: post, pre.map ViewState.vid ++ [v.vid], false) := by
  induction pre with
  | nil => simp [run_views, hv]
  | cons u us ih =>
    obtain ⟨r, hr⟩ := hpre u (by simp)
    cases hres : update_view st u with
    | error e => rw [hres] at hr; cases hr
    | ok p =>
      rcases p with ⟨u2, flag⟩
      simp only [List.cons_append, run_views, hres, List.append_eq]
      rw [ih (fun w hw => hpre w (by simp [hw]))]
      simp [ok_view, hres]

/-- C2 counterexample: with two eligible dirty foreground views where the
first one's scan raises, the tick processes only the first view (trace
`[0]`), leaves both views untouched (the second is not processed in that
tick), and leaves `is_rendering` set. -/
theorem c2_counter_scan_failure_aborts :
    tick ⟨true, true, true⟩
        ⟨false, [⟨0, true, true, false, false, false, false, false, true⟩,
                 ⟨1, true, true, false, false, false, false, false, false⟩]⟩ =
      (⟨true, [⟨0, true, true, false, false, false, false, false, true⟩,
               ⟨1, true, true, false, false, false, false, false, false⟩]⟩, [0])
    ∧ (1 : Nat) ∉
        (tick ⟨true, true, true⟩
          ⟨false, [⟨0, true, true, false, false, false, false, false, true⟩,
                   ⟨1, true, true, false, false, false, false, false, false⟩]⟩).2 := by
  decide

/-- C2 (amended): a scan failure while processing one foreground view aborts
the tick: the views after the failing one are not processed in that tick
(they are left untouched and their ids never enter the processed trace).
The failing view's dirty flag is indeed left as-is (the view is unchanged),
but it is not retried on the next tick, because `is_rendering` is left set
and every later tick is a no-op. -/
theorem c2_scan_failure_semantics (st : PluginSettings) (pre : List ViewState)
    (v : ViewState) (post : List ViewState)
    (hpre : ∀ u ∈ pre, ∃ r, update_view st u = .ok r)
    (hv : update_view st v = .error ()) :
    (tick st ⟨false, pre ++ v :: post⟩).2 = pre.map ViewState.vid ++ [v.vid]
    ∧ (tick st ⟨false, pre ++ v :: post⟩).1.views = pre.map (ok_view st) ++ v :: post
    ∧ (tick st ⟨false, pre ++ v :: post⟩).1.is_rendering = true := by
  have h := run_views_split st pre v post hpre hv
  refine ⟨?_, ?_, ?_⟩ <;> simp [tick, h]

/-- C2 witness: a three-view tick whose middle view raises, through the
amended theorem. -/
theorem c2_scan_failure_semantics_witness :
    (tick ⟨true, true, true⟩
        ⟨false, [⟨5, false, true, false, false, false, false, false, false⟩,
                 ⟨0, true, true, false, false, false, false, false, true⟩,
                 ⟨9, true, true, false, false, false, false, false, false⟩]⟩).2 = [5, 0]
    ∧ (tick ⟨true, true, true⟩
        ⟨false, [⟨5, false, true, false, false, false, false, false, false⟩,
                 ⟨0, true, true, false, false, false, false, false, true⟩,
                 ⟨9, true, true, false, false, false, false, false, false⟩]⟩).1.views =
        [⟨5, false, true, false, false, false, false, false, false⟩,
         ⟨0, true, true, false, false, false, false, false, true⟩,
         ⟨9, true, true, false, false, false, false, false, false⟩]
    ∧ (tick ⟨true, true, true⟩
        ⟨false, [⟨5, false, true, false, false, false, false, false, false⟩,
                 ⟨0, true, true, false, false, false, false, false, true⟩,
                 ⟨9, true, true, false, false, false, false, false, false⟩]⟩).1.is_rendering
        = true := by
  have h := c2_scan_failure_semantics ⟨true, true, true⟩
    [⟨5, false, true, false, false, false, false, false, false⟩]
    ⟨0, true, true, false, false, false, false, false, true⟩
    [⟨9, true, true, false, false, false, false, false, false⟩]
    (by
      intro u hu
      rw [List.mem_singleton] at hu
      subst hu
      exact ⟨(⟨5, false, true, false, false, false, false, false, false⟩, false), rfl⟩)
    rfl
  exact ⟨h.1.trans (by decide), h.2.1.trans (by simp [ok_view, update_view]), h.2.2⟩

/-- C9: if the per-view loop of a tick raises (here: some view's scan
raises), the scheduler's `is_rendering` flag is left true and never reset:
every subsequent tick, for any number of iterations, returns the state
unchanged and processes zero views.  One uncaught per-view error permanently
disables all further scanning. -/
theorem c9_error_disables_scheduler (st : PluginSettings) (s : SchedulerState)
    (h0 : s.is_rendering = false)
    (herr : (run_views st s.views).2.2 = false) :
    (tick_state st s).is_rendering = true
    ∧ ∀ n : Nat, (tick_state st)^[n] (tick_state st s) = tick_state st s
      ∧ (tick st ((tick_state st)^[n] (tick_state st s))).2 = [] := by
  have h1 : (tick_state st s).is_rendering = true := by
    simp [tick_state, tick, h0, herr]
  have hfix : tick_state st (tick_state st s) = tick_state st s := by
    have h2 := tick_stuck st (tick_state st s) h1
    rw [show tick_state st (tick_state st s) = (tick st (tick_state st s)).1 from rfl, h2]
  refine ⟨h1, ?_⟩
  intro n
  have hiter : (tick_state st)^[n] (tick_state st s) = tick_state st s := by
    induction n with
    | zero => simp
    | succ m ih => rw [Function.iterate_succ_apply, hfix, ih]
  refine ⟨hiter, ?_⟩
  rw [hiter, tick_stuck st _ h1]

/-- C9 witness: a single failing view permanently sticks the scheduler;
instantiated at three subsequent ticks. -/
theorem c9_error_disables_scheduler_witness :
    (tick_state ⟨true, true, true⟩
        ⟨false, [⟨0, true, true, false, false, false, false, false, true⟩]⟩).is_rendering = true
    ∧ (tick_state ⟨true, true, true⟩)^[3]
        (tick_state ⟨true, true, true⟩
          ⟨false, [⟨0, true, true, false, false, false, false, false, true⟩]⟩) =
        tick_state ⟨true, true, true⟩
          ⟨false, [⟨0, true, true, false, false, false, false, false, true⟩]⟩
    ∧ (tick ⟨true, true, true⟩
        ((tick_state ⟨true, true, true⟩)^[3]
          (tick_state ⟨true, true, true⟩
            ⟨false, [⟨0, true, true, false, false, false, false, false, true⟩]⟩))).2 = [] := by
  have h := c9_error_disables_scheduler ⟨true, true, true⟩
    ⟨false, [⟨0, true, true, false, false, false, false, false, true⟩]⟩ rfl (by decide)
  exact ⟨h.1, (h.2 3).1, (h.2 3).2⟩

/-- C7: an eligible (processable, dirty, not typing, transient policy
satisfied) but oversized view has both overlay layers erased and its dirty
flag cleared, and pattern detection is not run on it (the returned flag is
false). -/
theorem c7_too_large_teardown (st : PluginSettings) (v : ViewState)
    (hp : v.processable = true) (hd : v.dirty = true) (ht : v.typing = false)
    (htr : v.transient = true → st.work_for_transient_view = true)
    (hl : v.too_large = true) :
    update_view st v =
      .ok ({ v with has_phantoms := false, has_uri_regions := false,
                    dirty := false }, false) := by
  have hcond : ¬(v.processable = false ∨ v.dirty = false ∨ v.typing = true
      ∨ (v.transient = true ∧ st.work_for_transient_view = false)) := by
    simp only [hp, hd, ht]
    rintro (h | h | h | ⟨h1, h2⟩)
    · cases h
    · cases h
    · cases h
    · rw [htr h1] at h2; cases h2
  rw [update_view, if_neg hcond, if_pos hl]

/-- C7 witness: a concrete oversized view that previously had both overlay
layers populated loses them and its dirty flag in one call. -/
theorem c7_too_large_teardown_witness :
    update_view ⟨false, true, true⟩
        ⟨3, true, true, false, false, true, true, true, false⟩ =
      .ok (⟨3, true, false, false, false, true, false, false, false⟩, false) := by
  have h := c7_too_large_teardown ⟨false, true, true⟩
    ⟨3, true, true, false, false, true, true, true, false⟩
    rfl rfl rfl (by intro h1; cases h1) rfl
  exact h.trans (by simp)

/-! ### PNG recoloring engine (plugin/ui/image.py) -/

/-- A decoded RGBA image as produced by `png.Reader(...).asRGBA()` (the
external `png` library): the reported width and height and the rows of the
pixel grid, each row a flat list of channel values (4 per pixel, row-major
as in the source). -/
structure RgbaImage where
  width : Nat
  height : Nat
  rows : List (List Nat)
deriving DecidableEq

/-- Embedding of `more_itertools.grouper(row, 4)`: split a flat row into
groups of four channel values.  (On rows whose length is not a multiple of
four, `grouper` pads with `None`; the incomplete trailing group is modeled
unpadded here, and every verified statement works on well-formed rows whose
length is a multiple of four.) -/
def chunk4 : List Nat → List (List Nat)
  | [] => []
  | [a] => [[a]]
  | [a, b] => [[a, b]]
  | [a, b, c] => [[a, b, c]]
  | a :: b :: c :: d :: rest => [a, b, c, d] :: chunk4 rest

/-- Embedding of `calculate_gray` (image.py lines 109-118):
`(rgb[0] * 38 + rgb[1] * 75 + rgb[2] * 15) >> 7`. -/
def calculate_gray (rgb : List Nat) : Nat :=
  (rgb.getD 0 0 * 38 + rgb.getD 1 0 * 75 + rgb.getD 2 0 * 15) >>> 7

/-- The `gray_sum` computed by `is_img_light` (image.py line 130): the sum of
`calculate_gray` over every pixel of every row. -/
def gray_sum (img : RgbaImage) : Nat :=
  (((img.rows.map chunk4).flatten).map calculate_gray).sum

/-- Embedding of `is_img_light` (image.py lines 121-131):
`(gray_sum >> 7) > w * h`. -/
def is_img_light (img : RgbaImage) : Bool :=
  decide (img.width * img.height < gray_sum img >>> 7)

/-- Embedding of the inner `render_pixel` of `change_png_bytes_color`
(image.py lines 78-93). -/
def render_pixel (rgba_src rgba_dst : List Nat) (invert_gray : Bool) : List Nat :=
  let gray0 := calculate_gray rgba_src
  let gray := if invert_gray then 255 - gray0 else gray0
  [(rgba_dst.getD 0 0 * gray) >>> 8,
   (rgba_dst.getD 1 0 * gray) >>> 8,
   (rgba_dst.getD 2 0 * gray) >>> 8,
   (rgba_dst.getD 3 0 * rgba_src.getD 3 0) >>> 8]

/-- Shallow embedding of `re.match(r"#[0-9a-fA-F]{8}$", rgba_code)` (image.py
line 75): a `#` followed by exactly eight hex digits, where Python's `$`
(without MULTILINE) also matches just before one final trailing newline, so
a ninth character is accepted when it is a newline after eight hex digits. -/
def rgba_code_matches (rgba_code : List Char) : Bool :=
  match rgba_code with
  | c :: rest => c == '#'
      && ((rest.length == 8 && rest.all is_hex_char)
          || (rest.length == 9 && rest.getLast? == some '\n'
              && rest.dropLast.all is_hex_char))
  | [] => false

/-- Embedding of `change_png_bytes_color` (image.py lines 62-106) on the
decoded pixel grid (PNG decode/encode by the external `png` library is the
identity boundary of this model: the function maps the decoded grid of the
input bytes to the decoded grid of the output bytes). -/
def change_png_color (img : RgbaImage) (rgba_code : List Char) : Except String RgbaImage :=
  if rgba_code = [] then .ok img
  else if rgba_code_matches rgba_code = false then
    .error "Invalid RGBA color code"
  else
    let invert_gray := !is_img_light img
    let rgba_dst := [parse_hex ((rgba_code.drop 1).take 2),
                     parse_hex ((rgba_code.drop 3).take 2),
                     parse_hex ((rgba_code.drop 5).take 2),
                     parse_hex ((rgba_code.drop 7).take 2)]
    .ok { img with rows := img.rows.map (fun row =>
      ((chunk4 row).map (fun px => render_pixel px rgba_dst invert_gray)).flatten) }

/-- C10: a 1x1 fully-opaque white image has per-pixel gray 255, gray sum
shifted right by 7 equal to 1, is classified not light (1 > 1 is false), and
recoloring it therefore uses the inverted gray weight 255 - 255 = 0 for its
pixel (shown against target `#ffffffff`: the recolored pixel is
`[0, 0, 0, 254]`, exactly the inverted-weight rendering, where the
non-inverted weight would give `[254, 254, 254, 254]`). -/
theorem c10_white_not_light :
    calculate_gray [255, 255, 255, 255] = 255
    ∧ gray_sum ⟨1, 1, [[255, 255, 255, 255]]⟩ >>> 7 = 1
    ∧ ¬(gray_sum ⟨1, 1, [[255, 255, 255, 255]]⟩ >>> 7 > 1 * 1)
    ∧ is_img_light ⟨1, 1, [[255, 255, 255, 255]]⟩ = false
    ∧ change_png_color ⟨1, 1, [[255, 255, 255, 255]]⟩
        ['#', 'f', 'f', 'f', 'f', 'f', 'f', 'f', 'f'] =
        .ok ⟨1, 1, [[0, 0, 0, 254]]⟩
    ∧ render_pixel [255, 255, 255, 255] [255, 255, 255, 255] true = [0, 0, 0, 254]
    ∧ render_pixel [255, 255, 255, 255] [255, 255, 255, 255] false =
        [254, 254, 254, 254] := by
  refine ⟨by decide, by decide, by decide, by decide, by rfl, by decide, by decide⟩

/-! ### Bitwise arithmetic for the inverted scope color -/

lemma and_mask_low (n : Nat) : n &&& 0xFF = n % 256 := by
  have h := Nat.and_pow_two_sub_one_eq_mod n 8
  norm_num at h
  exact_mod_cast h

lemma and_mask_high (z w : Nat) (hz : z < 2 ^ 24) (hw : w < 2 ^ 8) :
    (2 ^ 8 * z + w) &&& 0xFFFFFF00 = 2 ^ 8 * z := by
  apply Nat.eq_of_testBit_eq
  intro i
  rw [Nat.testBit_and]
  by_cases h32 : i < 32
  · interval_cases i <;>
      (simp only [Nat.testBit_to_div_mod, ← Bool.decide_and]
       refine decide_eq_decide.mpr ?_
       first
       | omega
       | (norm_num
          omega)
       | norm_num)
  · have h1 : Nat.testBit (2 ^ 8 * z + w) i = false :=
      Nat.testBit_lt_two_pow
        (lt_of_lt_of_le (by omega) (Nat.pow_le_pow_right (by norm_num) (show 32 ≤ i by omega)))
    have h2 : Nat.testBit (2 ^ 8 * z) i = false :=
      Nat.testBit_lt_two_pow
        (lt_of_lt_of_le (by omega) (Nat.pow_le_pow_right (by norm_num) (show 32 ≤ i by omega)))
    rw [h1, h2]
    simp

lemma or_low (z w : Nat) (hz : z < 2 ^ 24) (hw : w < 2 ^ 8) :
    (2 ^ 8 * z) ||| w = 2 ^ 8 * z + w := by
  apply Nat.eq_of_testBit_eq
  intro i
  rw [Nat.testBit_or]
  by_cases h32 : i < 32
  · interval_cases i <;>
      (simp only [Nat.testBit_to_div_mod, ← Bool.decide_or]
       refine decide_eq_decide.mpr ?_
       first
       | omega
       | (norm_num
          omega)
       | norm_num)
  · have h1 : Nat.testBit (2 ^ 8 * z) i = false :=
      Nat.testBit_lt_two_pow
        (lt_of_lt_of_le (by omega) (Nat.pow_le_pow_right (by norm_num) (show 32 ≤ i by omega)))
    have h2 : Nat.testBit w i = false :=
      Nat.testBit_lt_two_pow
        (lt_of_lt_of_le (by omega) (Nat.pow_le_pow_right (by norm_num) (show 32 ≤ i by omega)))
    have h3 : Nat.testBit (2 ^ 8 * z + w) i = false :=
      Nat.testBit_lt_two_pow
        (lt_of_lt_of_le (by omega) (Nat.pow_le_pow_right (by norm_num) (show 32 ≤ i by omega)))
    rw [h1, h2, h3]
    simp

/-- The core arithmetic of the `@scope_inverted` branch: on a 32-bit RGBA
value with byte components R, G, B, A, the masked combination inverts the
three color bytes and preserves the alpha byte. -/
lemma invert_mask_arith (R G B A : Nat) (hR : R < 256) (hG : G < 256) (hB : B < 256)
    (hA : A < 256) :
    (0xFFFFFFFF - (R * 2 ^ 24 + G * 2 ^ 16 + B * 2 ^ 8 + A)) &&& 0xFFFFFF00
      ||| ((R * 2 ^ 24 + G * 2 ^ 16 + B * 2 ^ 8 + A) &&& 0xFF) =
    (255 - R) * 2 ^ 24 + (255 - G) * 2 ^ 16 + (255 - B) * 2 ^ 8 + A := by
  have hX : 0xFFFFFFFF - (R * 2 ^ 24 + G * 2 ^ 16 + B * 2 ^ 8 + A)
      = 2 ^ 8 * ((255 - R) * 2 ^ 16 + (255 - G) * 2 ^ 8 + (255 - B)) + (255 - A) := by
    omega
  have hmod : (R * 2 ^ 24 + G * 2 ^ 16 + B * 2 ^ 8 + A) % 256 = A := by omega
  rw [hX, and_mask_high _ _ (by omega) (by omega), and_mask_low, hmod,
    or_low _ _ (by omega) (by omega)]
  ring

/-! ### Hexadecimal parsing and formatting lemmas -/

lemma hex_char_val_lt (c : Char) : hex_char_val c < 16 := by
  unfold hex_char_val
  split
  · omega
  split
  · omega
  split
  · omega
  · omega

lemma hex_digit_char_spec {d : Nat} (h : d < 16) :
    hex_char_val (hex_digit_char d) = d
    ∧ (hex_digit_char d).toLower = hex_digit_char d
    ∧ is_lower_hex_char (hex_digit_char d) = true
    ∧ ((hex_digit_char d) == '#') = false := by
  interval_cases d <;> refine ⟨by decide, by decide, by decide, by decide⟩

lemma parse_hex_foldl (l : List Char) :
    ∀ a : Nat, l.foldl (fun acc c => acc * 16 + hex_char_val c) a
      = a * 16 ^ l.length + parse_hex l := by
  induction l with
  | nil => intro a; simp [parse_hex]
  | cons c l ih =>
    intro a
    rw [List.foldl_cons, ih (a * 16 + hex_char_val c)]
    have h2 : parse_hex (c :: l) = hex_char_val c * 16 ^ l.length + parse_hex l := by
      rw [parse_hex, List.foldl_cons]
      rw [show (0 * 16 + hex_char_val c) = hex_char_val c by ring]
      exact ih (hex_char_val c)
    rw [h2, List.length_cons]
    ring

lemma parse_hex_cons (c : Char) (l : List Char) :
    parse_hex (c :: l) = hex_char_val c * 16 ^ l.length + parse_hex l := by
  rw [parse_hex, List.foldl_cons]
  rw [show (0 * 16 + hex_char_val c) = hex_char_val c by ring]
  exact parse_hex_foldl l (hex_char_val c)

lemma parse_hex_append (l1 l2 : List Char) :
    parse_hex (l1 ++ l2) = parse_hex l1 * 16 ^ l2.length + parse_hex l2 := by
  rw [parse_hex, List.foldl_append]
  exact parse_hex_foldl l2 _

lemma parse_hex_lt (l : List Char) : parse_hex l < 16 ^ l.length := by
  induction l with
  | nil => simp [parse_hex]
  | cons c l ih =>
    rw [parse_hex_cons, List.length_cons]
    have hv := hex_char_val_lt c
    calc hex_char_val c * 16 ^ l.length + parse_hex l
        < hex_char_val c * 16 ^ l.length + 16 ^ l.length := by omega
      _ = (hex_char_val c + 1) * 16 ^ l.length := by ring
      _ ≤ 16 * 16 ^ l.length := Nat.mul_le_mul_right _ (by omega)
      _ = 16 ^ (l.length + 1) := by ring

lemma parse_hex_single (c : Char) : parse_hex [c] = hex_char_val c := by
  rw [parse_hex_cons]
  simp [parse_hex]

lemma parse_hex_hex_repr (n : Nat) : parse_hex (hex_repr n) = n := by
  induction n using Nat.strong_induction_on with
  | _ n ih =>
    rw [hex_repr]
    split
    · next h =>
      rw [parse_hex_single]
      exact (hex_digit_char_spec h).1
    · next h =>
      rw [parse_hex_append, ih (n / 16) (Nat.div_lt_self (by omega) (by omega))]
      rw [parse_hex_single, (hex_digit_char_spec (Nat.mod_lt _ (by omega))).1]
      simp only [List.length_cons, List.length_nil, pow_one]
      omega

lemma hex_repr_digits (n : Nat) : ∀ c ∈ hex_repr n, ∃ d, d < 16 ∧ c = hex_digit_char d := by
  induction n using Nat.strong_induction_on with
  | _ n ih =>
    rw [hex_repr]
    split
    · next h =>
      intro c hc
      rw [List.mem_singleton] at hc
      exact ⟨n, h, hc⟩
    · next h =>
      intro c hc
      rcases List.mem_append.mp hc with h1 | h1
      · exact ih (n / 16) (Nat.div_lt_self (by omega) (by omega)) c h1
      · rw [List.mem_singleton] at h1
        exact ⟨n % 16, Nat.mod_lt _ (by omega), h1⟩

lemma hex_repr_length_le : ∀ (k n : Nat), 0 < k → n < 16 ^ k → (hex_repr n).length ≤ k := by
  intro k
  induction k with
  | zero => intro n h; omega
  | succ m ih =>
    intro n hk hn
    rw [hex_repr]
    split
    · simp
    · next h =>
      rw [List.length_append]
      have hm : 0 < m := by
        rcases Nat.eq_zero_or_pos m with hm0 | hm0
        · subst hm0
          rw [pow_one] at hn
          omega
        · exact hm0
      have hdiv : n / 16 < 16 ^ m := by
        have hpow : n < 16 ^ m * 16 := by
          rw [← pow_succ]
          exact hn
        omega
      have := ih (n / 16) hm hdiv
      simp only [List.length_cons, List.length_nil]
      omega

lemma parse_hex_zero_pad (k : Nat) (l : List Char) :
    parse_hex (List.replicate k '0' ++ l) = parse_hex l := by
  induction k with
  | zero => simp
  | succ m ih =>
    rw [List.replicate_succ, List.cons_append, parse_hex_cons]
    rw [show hex_char_val '0' = 0 from rfl]
    simpa using ih

/-- All format properties of `format08x` needed for the inverted scope color:
for values below `16^8` it is exactly eight characters, parses back to the
value, and consists of lowercase hex digits none of which is `#` (so it is a
fixed point of lowercasing). -/
lemma format08x_spec (m : Nat) (hm : m < 16 ^ 8) :
    (format08x m).length = 8
    ∧ parse_hex (format08x m) = m
    ∧ (format08x m).all is_lower_hex_char = true
    ∧ py_lower (format08x m) = format08x m
    ∧ (∀ c ∈ format08x m, (c == '#') = false) := by
  have hlen8 : (hex_repr m).length ≤ 8 := hex_repr_length_le 8 m (by omega) hm
  have hall : ∀ c ∈ format08x m,
      is_lower_hex_char c = true ∧ c.toLower = c ∧ (c == '#') = false := by
    intro c hc
    rw [format08x] at hc
    rcases List.mem_append.mp hc with h1 | h1
    · have hc0 : c = '0' := List.eq_of_mem_replicate h1
      subst hc0
      exact ⟨by decide, by decide, by decide⟩
    · obtain ⟨d, hd, hcd⟩ := hex_repr_digits m c h1
      obtain ⟨_, h2, h3, h4⟩ := hex_digit_char_spec hd
      subst hcd
      exact ⟨h3, h2, h4⟩
  refine ⟨?_, ?_, ?_, ?_, fun c hc => (hall c hc).2.2⟩
  · rw [format08x, List.length_append, List.length_replicate]
    omega
  · rw [format08x, parse_hex_zero_pad, parse_hex_hex_repr]
  · rw [List.all_eq_true]
    intro c hc
    exact (hall c hc).1
  · rw [py_lower]
    rw [List.map_congr_left (fun c hc => (hall c hc).2.1)]
    exact List.map_id _

/-- Reduction of `add_alpha_to_rgb` on a `#` followed by an 8-character
lowercase-stable hex string (the shape produced by the inverted-scope
branch). -/
lemma add_alpha_no_hash8 (L : List Char) (hlen : L.length = 8)
    (hhash : ∀ c ∈ L, (c == '#') = false)
    (hlow : py_lower L = L) :
    add_alpha_to_rgb ('#' :: L) = .ok ('#' :: L) := by
  have hdwL : L.dropWhile (fun ch => ch == '#') = L := by
    cases L with
    | nil => rfl
    | cons c l =>
      rw [List.dropWhile_cons, hhash c (by simp)]
      simp
  have hdw : ('#' :: L).dropWhile (fun ch => ch == '#') = L := by
    rw [List.dropWhile_cons]
    simp [hdwL]
  simp only [add_alpha_to_rgb, hdw, List.take_of_length_le (le_of_eq hlen)]
  rw [if_neg (by intro h0; rw [h0] at hlen; simp at hlen), if_pos hlen]
  rw [py_lower, List.map_cons]
  rw [show Char.toLower '#' = '#' from rfl]
  rw [show List.map Char.toLower L = L from hlow]

/-- The non-`#` branch of `color_code_to_rgba` on the literal
`"@scope_inverted"` reduces to the inverted scope color. -/
lemma ccr_scope_inverted (sc : List Char) :
    color_code_to_rgba_raw at_scope_inverted sc = scope_inverted_color sc := by
  rfl

/-- Core of C6: if the parsed `RRGGBBAA` value of the padded lookup color has
byte components (R, G, B, A), normalization of `"@scope_inverted"` yields a
lowercase 8-digit color whose parsed value has bytes
(255 - R, 255 - G, 255 - B, A). -/
lemma scope_inverted_core (cs : List Char) (R G B A : Nat)
    (hn : parse_hex ((('#' :: cs ++ ['f', 'f']).drop 1).take 8)
        = R * 2 ^ 24 + G * 2 ^ 16 + B * 2 ^ 8 + A)
    (hR : R < 256) (hG : G < 256) (hB : B < 256) (hA : A < 256) :
    ∃ out, normalize_color at_scope_inverted ('#' :: cs) = .ok out
      ∧ out.length = 9 ∧ out.take 1 = ['#']
      ∧ (out.drop 1).all is_lower_hex_char = true
      ∧ parse_hex (out.drop 1)
          = (255 - R) * 2 ^ 24 + (255 - G) * 2 ^ 16 + (255 - B) * 2 ^ 8 + A := by
  have hm : (0xFFFFFFFF - parse_hex ((('#' :: cs ++ ['f', 'f']).drop 1).take 8)) &&& 0xFFFFFF00
      ||| (parse_hex ((('#' :: cs ++ ['f', 'f']).drop 1).take 8) &&& 0xFF)
      = (255 - R) * 2 ^ 24 + (255 - G) * 2 ^ 16 + (255 - B) * 2 ^ 8 + A := by
    rw [hn]
    exact invert_mask_arith R G B A hR hG hB hA
  have hT32 : (255 - R) * 2 ^ 24 + (255 - G) * 2 ^ 16 + (255 - B) * 2 ^ 8 + A < 16 ^ 8 := by
    norm_num
    omega
  obtain ⟨hf1, hf2, hf3, hf4, hf5⟩ := format08x_spec _ hT32
  have hccr : color_code_to_rgba_raw at_scope_inverted ('#' :: cs)
      = '#' :: format08x ((255 - R) * 2 ^ 24 + (255 - G) * 2 ^ 16 + (255 - B) * 2 ^ 8 + A) := by
    rw [ccr_scope_inverted]
    simp only [scope_inverted_color]
    rw [hm]
  rw [normalize_color, hccr]
  rw [add_alpha_no_hash8 _ hf1 hf5 hf4]
  refine ⟨_, rfl, ?_, rfl, ?_, ?_⟩
  · rw [List.length_cons, hf1]
  · exact hf3
  · exact hf2

lemma parse_hex_pair_lt (x y : Char) : parse_hex [x, y] < 256 := by
  have h := parse_hex_lt [x, y]
  norm_num at h
  exact h

lemma parse_hex_four_pairs (x1 x2 y1 y2 z1 z2 w1 w2 : Char) :
    parse_hex [x1, x2, y1, y2, z1, z2, w1, w2]
      = parse_hex [x1, x2] * 2 ^ 24 + parse_hex [y1, y2] * 2 ^ 16
        + parse_hex [z1, z2] * 2 ^ 8 + parse_hex [w1, w2] := by
  rw [show ([x1, x2, y1, y2, z1, z2, w1, w2] : List Char)
      = [x1, x2] ++ ([y1, y2] ++ ([z1, z2] ++ [w1, w2])) from rfl]
  rw [parse_hex_append, parse_hex_append, parse_hex_append]
  simp only [List.length_append, List.length_cons, List.length_nil]
  norm_num
  ring

/-- C6: for the symbolic input `"@scope_inverted"`, when the theme lookup
returns a color of the form `#RRGGBB` or `#RRGGBBAA` (hex digits), the
normalization pipeline returns a lowercase 8-digit color whose R, G and B
bytes are the bitwise complements of the looked-up color's bytes and whose
alpha byte equals the looked-up alpha (`ff`, that is 255, when the looked-up
color had no alpha component). -/
theorem c6_scope_inverted :
    (∀ a1 a2 b1 b2 d1 d2 : Char,
      is_hex_char a1 = true → is_hex_char a2 = true → is_hex_char b1 = true →
      is_hex_char b2 = true → is_hex_char d1 = true → is_hex_char d2 = true →
      ∃ out, normalize_color at_scope_inverted ['#', a1, a2, b1, b2, d1, d2] = .ok out
        ∧ out.length = 9 ∧ out.take 1 = ['#']
        ∧ (out.drop 1).all is_lower_hex_char = true
        ∧ parse_hex (out.drop 1)
            = (255 - parse_hex [a1, a2]) * 2 ^ 24 + (255 - parse_hex [b1, b2]) * 2 ^ 16
              + (255 - parse_hex [d1, d2]) * 2 ^ 8 + 255)
    ∧ (∀ a1 a2 b1 b2 d1 d2 e1 e2 : Char,
      is_hex_char a1 = true → is_hex_char a2 = true → is_hex_char b1 = true →
      is_hex_char b2 = true → is_hex_char d1 = true → is_hex_char d2 = true →
      is_hex_char e1 = true → is_hex_char e2 = true →
      ∃ out, normalize_color at_scope_inverted ['#', a1, a2, b1, b2, d1, d2, e1, e2]
          = .ok out
        ∧ out.length = 9 ∧ out.take 1 = ['#']
        ∧ (out.drop 1).all is_lower_hex_char = true
        ∧ parse_hex (out.drop 1)
            = (255 - parse_hex [a1, a2]) * 2 ^ 24 + (255 - parse_hex [b1, b2]) * 2 ^ 16
              + (255 - parse_hex [d1, d2]) * 2 ^ 8 + parse_hex [e1, e2]) := by
  constructor
  · intro a1 a2 b1 b2 d1 d2 _ _ _ _ _ _
    refine scope_inverted_core [a1, a2, b1, b2, d1, d2]
      (parse_hex [a1, a2]) (parse_hex [b1, b2]) (parse_hex [d1, d2]) 255 ?_
      (parse_hex_pair_lt a1 a2) (parse_hex_pair_lt b1 b2) (parse_hex_pair_lt d1 d2)
      (by norm_num)
    show parse_hex [a1, a2, b1, b2, d1, d2, 'f', 'f'] = _
    rw [parse_hex_four_pairs]
    rw [show parse_hex ['f', 'f'] = 255 from by decide]
  · intro a1 a2 b1 b2 d1 d2 e1 e2 _ _ _ _ _ _ _ _
    refine scope_inverted_core [a1, a2, b1, b2, d1, d2, e1, e2]
      (parse_hex [a1, a2]) (parse_hex [b1, b2]) (parse_hex [d1, d2]) (parse_hex [e1, e2]) ?_
      (parse_hex_pair_lt a1 a2) (parse_hex_pair_lt b1 b2) (parse_hex_pair_lt d1 d2)
      (parse_hex_pair_lt e1 e2)
    show parse_hex [a1, a2, b1, b2, d1, d2, e1, e2] = _
    rw [parse_hex_four_pairs]

/-- C6 witness: the 6-digit lookup color `#336699`, through the theorem. -/
theorem c6_scope_inverted_witness :
    ∃ out, normalize_color at_scope_inverted ['#', '3', '3', '6', '6', '9', '9'] = .ok out
      ∧ out.length = 9 ∧ out.take 1 = ['#']
      ∧ (out.drop 1).all is_lower_hex_char = true
      ∧ parse_hex (out.drop 1)
          = (255 - parse_hex ['3', '3']) * 2 ^ 24 + (255 - parse_hex ['6', '6']) * 2 ^ 16
            + (255 - parse_hex ['9', '9']) * 2 ^ 8 + 255 :=
  c6_scope_inverted.1 '3' '3' '6' '6' '9' '9' (by decide) (by decide) (by decide)
    (by decide) (by decide) (by decide)

/-! ### Pixel-level extraction for the recoloring transform -/

lemma render_pixel_length (src dst : List Nat) (inv : Bool) :
    (render_pixel src dst inv).length = 4 := rfl

/-- Extracting pixel j of a transformed flat row: the flattened, per-pixel
transformed row agrees at channel positions 4j..4j+3 with the transform of
the source pixel at those positions. -/
lemma flat_chunk_extract (dst : List Nat) (inv : Bool) :
    ∀ (j : Nat) (row : List Nat), 4 * j + 4 ≤ row.length →
      ((((chunk4 row).map (fun px => render_pixel px dst inv)).flatten).drop (4 * j)).take 4
        = render_pixel ((row.drop (4 * j)).take 4) dst inv := by
  intro j
  induction j with
  | zero =>
    intro row hlen
    match row, hlen with
    | a :: b :: c :: d :: rest, _ =>
      rw [show chunk4 (a :: b :: c :: d :: rest) = [a, b, c, d] :: chunk4 rest from rfl]
      simp only [List.map_cons, List.flatten_cons, Nat.mul_zero, List.drop_zero]
      rw [List.take_left' (render_pixel_length [a, b, c, d] dst inv)]
      rfl
  | succ m ih =>
    intro row hlen
    match row, hlen with
    | a :: b :: c :: d :: rest, hl =>
      rw [show chunk4 (a :: b :: c :: d :: rest) = [a, b, c, d] :: chunk4 rest from rfl]
      simp only [List.map_cons, List.flatten_cons]
      rw [show 4 * (m + 1) = 4 + 4 * m from by ring]
      rw [← List.drop_drop]
      rw [(List.drop_drop (4 * m) 4 (a :: b :: c :: d :: rest)).symm]
      rw [List.drop_left' (render_pixel_length [a, b, c, d] dst inv)]
      rw [show List.drop 4 (a :: b :: c :: d :: rest) = rest from rfl]
      have hlen2 : 4 * m + 4 ≤ rest.length := by
        simp only [List.length_cons] at hl
        omega
      exact ih rest hlen2

lemma rows_map_getD (F : List Nat → List Nat) (rs : List (List Nat)) (i : Nat)
    (hi : i < rs.length) :
    (rs.map F).getD i [] = F (rs.getD i []) := by
  rw [List.getD_eq_getElem?_getD, List.getElem?_map, List.getD_eq_getElem?_getD]
  rw [List.getElem?_eq_getElem hi]
  simp

lemma rows_getD_mem (rs : List (List Nat)) (i : Nat) (hi : i < rs.length) :
    rs.getD i [] ∈ rs := by
  rw [List.getD_eq_getElem?_getD, List.getElem?_eq_getElem hi]
  exact List.getElem_mem hi

/-- C1: for every decodable RGBA image (h rows of 4w byte channel values) and
every canonical `#rrggbbaa` target, recoloring succeeds and maps the source
pixel at row i, column j with channels (R, G, B, A) to
`((tR*g) >> 8, (tG*g) >> 8, (tB*g) >> 8, (tA*A) >> 8)`, where the t bytes
are the target's channels, `g0 = (R*38 + G*75 + B*15) >> 7`, and g is g0
when the image is classified light and `255 - g0` (the inverted weight)
exactly when it is classified dark; the image is classified light iff the
gray sum shifted right by 7 strictly exceeds `width * height`. -/
theorem c1_recolor_pixel_formula (img : RgbaImage)
    (t1 t2 t3 t4 t5 t6 t7 t8 : Char)
    (hhex : [t1, t2, t3, t4, t5, t6, t7, t8].all is_hex_char = true)
    (hh : img.rows.length = img.height)
    (hw : ∀ row ∈ img.rows, row.length = 4 * img.width)
    (hbytes : ∀ row ∈ img.rows, ∀ v ∈ row, v ≤ 255)
    (i j : Nat) (hi : i < img.height) (hj : j < img.width) :
    ∃ out, change_png_color img ('#' :: [t1, t2, t3, t4, t5, t6, t7, t8]) = .ok out
      ∧ (((out.rows.getD i []).drop (4 * j)).take 4 =
          (let src := ((img.rows.getD i []).drop (4 * j)).take 4
           let g0 := (src.getD 0 0 * 38 + src.getD 1 0 * 75 + src.getD 2 0 * 15) >>> 7
           let g := if is_img_light img then g0 else 255 - g0
           [(parse_hex [t1, t2] * g) >>> 8, (parse_hex [t3, t4] * g) >>> 8,
            (parse_hex [t5, t6] * g) >>> 8, (parse_hex [t7, t8] * src.getD 3 0) >>> 8]))
      ∧ (is_img_light img = true ↔ img.width * img.height < gray_sum img >>> 7) := by
  have hi2 : i < img.rows.length := by rw [hh]; exact hi
  have hmatch : rgba_code_matches ('#' :: [t1, t2, t3, t4, t5, t6, t7, t8]) = true := by
    simp [rgba_code_matches]
    simpa using hhex
  have hrow : (img.rows.getD i []).length = 4 * img.width :=
    hw _ (rows_getD_mem img.rows i hi2)
  have hex : ∃ out, change_png_color img ('#' :: [t1, t2, t3, t4, t5, t6, t7, t8]) = .ok out
      ∧ out.rows = img.rows.map (fun row => ((chunk4 row).map
          (fun px => render_pixel px [parse_hex [t1, t2], parse_hex [t3, t4],
            parse_hex [t5, t6], parse_hex [t7, t8]] (!is_img_light img))).flatten) := by
    refine ⟨{ img with rows := img.rows.map (fun row => ((chunk4 row).map
        (fun px => render_pixel px [parse_hex [t1, t2], parse_hex [t3, t4],
          parse_hex [t5, t6], parse_hex [t7, t8]] (!is_img_light img))).flatten) },
      ?_, rfl⟩
    rw [change_png_color, if_neg (by simp), if_neg (by rw [hmatch]; simp)]
    rfl
  obtain ⟨out, hch, hrows⟩ := hex
  refine ⟨out, hch, ?_, ?_⟩
  · rw [hrows, rows_map_getD _ img.rows i hi2]
    rw [flat_chunk_extract _ _ j (img.rows.getD i []) (by omega)]
    cases hlight : is_img_light img with
    | false =>
      simp only [render_pixel, calculate_gray, hlight, Bool.not_false, if_true, if_false]
      rfl
    | true =>
      simp only [render_pixel, calculate_gray, hlight, Bool.not_true, if_true, if_false]
      rfl
  · rw [is_img_light]
    exact decide_eq_true_iff

/-- C1 witness: a concrete 1x1 image recolored with `#01020304`, through the
theorem at row 0, column 0. -/
theorem c1_recolor_pixel_formula_witness :
    ∃ out, change_png_color ⟨1, 1, [[10, 20, 30, 40]]⟩
        ('#' :: ['0', '1', '0', '2', '0', '3', '0', '4']) = .ok out
      ∧ (((out.rows.getD 0 []).drop (4 * 0)).take 4 =
          (let src := (((⟨1, 1, [[10, 20, 30, 40]]⟩ : RgbaImage).rows.getD 0 []).drop
              (4 * 0)).take 4
           let g0 := (src.getD 0 0 * 38 + src.getD 1 0 * 75 + src.getD 2 0 * 15) >>> 7
           let g := if is_img_light ⟨1, 1, [[10, 20, 30, 40]]⟩ then g0 else 255 - g0
           [(parse_hex ['0', '1'] * g) >>> 8, (parse_hex ['0', '2'] * g) >>> 8,
            (parse_hex ['0', '3'] * g) >>> 8, (parse_hex ['0', '4'] * src.getD 3 0) >>> 8]))
      ∧ (is_img_light ⟨1, 1, [[10, 20, 30, 40]]⟩ = true ↔
          (⟨1, 1, [[10, 20, 30, 40]]⟩ : RgbaImage).width *
            (⟨1, 1, [[10, 20, 30, 40]]⟩ : RgbaImage).height
            < gray_sum ⟨1, 1, [[10, 20, 30, 40]]⟩ >>> 7) :=
  c1_recolor_pixel_formula ⟨1, 1, [[10, 20, 30, 40]]⟩ '0' '1' '0' '2' '0' '3' '0' '4'
    (by decide) (by decide) (by decide) (by decide) 0 0 (by decide) (by decide)

/-! ### Recolored-image cache (the lru_cache decorators in image.py) -/

/-- Key ordering model of `functools.lru_cache` as applied by the bare
`@lru_cache` decorators on `get_colored_image_base64_by_color` and
`change_png_bytes_color` (image.py lines 31 and 62): the Python default is
`maxsize=128`, a bounded least-recently-used cache.  The cache is modeled as
its list of keys, most recently used first; keys abstract the
`(img_name, rgba_code)` / `(img_bytes, rgba_code)` argument tuples.  A hit
moves the key to the front; a miss inserts at the front and drops the least
recently used key when the size would exceed `maxsize`. -/
def lru_lookup (maxsize : Nat) (cache : List Nat) (key : Nat) : List Nat :=
  if key ∈ cache then key :: cache.erase key
  else (key :: cache).take maxsize

/-- Position of a key in the cache order (length of the list when absent). -/
def cache_pos (k : Nat) : List Nat → Nat
  | [] => 0
  | a :: l => if a = k then 0 else cache_pos k l + 1

set_option maxRecDepth 100000 in
/-- C8 counterexample: an entry that has just been computed (cache `[0]`) is
evicted by the subsequent sequence of distinct lookups `1, …, 128`: the
cache is a bounded LRU with the functools default `maxsize=128`, not
unbounded. -/
theorem c8_counter_eviction :
    ((List.range' 1 128).foldl (lru_lookup 128) [0]).contains 0 = false := by
  decide

lemma cache_pos_erase_le (k q : Nat) (hkq : k ≠ q) :
    ∀ c : List Nat, cache_pos k (c.erase q) ≤ cache_pos k c := by
  intro c
  induction c with
  | nil => simp [List.erase_nil]
  | cons a l ih =>
    rw [List.erase_cons]
    by_cases haq : a = q
    · rw [if_pos (by simp [haq])]
      rw [cache_pos, if_neg (by rw [haq]; exact fun h => hkq h.symm)]
      omega
    · rw [if_neg (by simp [haq])]
      rw [cache_pos, cache_pos]
      by_cases hak : a = k
      · rw [if_pos hak, if_pos hak]
      · rw [if_neg hak, if_neg hak]
        omega

lemma cache_mem_take (k : Nat) :
    ∀ (c : List Nat) (n : Nat), k ∈ c → cache_pos k c < n → k ∈ c.take n := by
  intro c
  induction c with
  | nil => intro n h; cases h
  | cons a l ih =>
    intro n hmem hpos
    by_cases hak : a = k
    · subst hak
      match n, hpos with
      | m + 1, _ => exact List.mem_cons_self a (l.take m)
    · rw [cache_pos, if_neg hak] at hpos
      match n, hpos with
      | m + 1, hp =>
        rw [List.take_succ_cons]
        refine List.mem_cons_of_mem a (ih m ?_ (by omega))
        rcases List.mem_cons.mp hmem with h1 | h1
        · exact absurd h1.symm hak
        · exact h1

lemma cache_pos_take (k : Nat) :
    ∀ (c : List Nat) (n : Nat), cache_pos k c < n → cache_pos k (c.take n) = cache_pos k c := by
  intro c
  induction c with
  | nil => intro n h; simp
  | cons a l ih =>
    intro n hpos
    by_cases hak : a = k
    · subst hak
      match n, hpos with
      | m + 1, _ =>
        rw [List.take_succ_cons, cache_pos, if_pos rfl, cache_pos, if_pos rfl]
    · rw [cache_pos, if_neg hak] at hpos
      match n, hpos with
      | m + 1, hp =>
        rw [List.take_succ_cons, cache_pos, if_neg hak, cache_pos, if_neg hak]
        rw [ih m (by omega)]

/-- One LRU lookup of a key different from k: k stays cached (as long as its
position leaves room within the capacity), the capacity bound is preserved,
and k's position grows by at most one. -/
lemma lru_step (k q : Nat) (c : List Nat) (hmem : k ∈ c) (hq : q ≠ k)
    (hlen : c.length ≤ 128) (hpos : cache_pos k c + 1 < 128) :
    k ∈ lru_lookup 128 c q ∧ (lru_lookup 128 c q).length ≤ 128
      ∧ cache_pos k (lru_lookup 128 c q) ≤ cache_pos k c + 1 := by
  have hkq : k ≠ q := fun h => hq h.symm
  rw [lru_lookup]
  by_cases hqc : q ∈ c
  · rw [if_pos hqc]
    refine ⟨List.mem_cons_of_mem q ((List.mem_erase_of_ne hkq).mpr hmem), ?_, ?_⟩
    · rw [List.length_cons]
      rw [← List.length_erase_add_one hqc] at hlen
      exact hlen
    · rw [cache_pos, if_neg (fun h => hq h)]
      have := cache_pos_erase_le k q hkq c
      omega
  · rw [if_neg hqc]
    have hposq : cache_pos k (q :: c) = cache_pos k c + 1 := by
      rw [cache_pos, if_neg (fun h => hq h)]
    refine ⟨?_, ?_, ?_⟩
    · exact cache_mem_take k (q :: c) 128 (List.mem_cons_of_mem q hmem) (by omega)
    · rw [List.length_take]
      omega
    · rw [cache_pos_take k (q :: c) 128 (by omega), hposq]

/-- C8 (amended): the recolored-image caches are bounded LRU caches with the
functools default capacity 128, not unbounded: a cached entry is retained as
long as its position plus the number of subsequent lookups of other keys
stays below 128 (in particular, a freshly used entry survives any 127
subsequent lookups), but 128 distinct subsequent lookups can evict it. -/
theorem c8_lru_retention (cache : List Nat) (k : Nat) (qs : List Nat)
    (hmem : k ∈ cache) (hlen : cache.length ≤ 128)
    (hqs : ∀ q ∈ qs, q ≠ k)
    (hbound : cache_pos k cache + qs.length < 128) :
    k ∈ qs.foldl (lru_lookup 128) cache := by
  induction qs generalizing cache with
  | nil => simpa using hmem
  | cons q rest ih =>
    have hq : q ≠ k := hqs q (by simp)
    have hstep := lru_step k q cache hmem hq hlen
      (by simp only [List.length_cons] at hbound; omega)
    rw [List.foldl_cons]
    refine ih (lru_lookup 128 cache q) hstep.1 hstep.2.1
      (fun w hw => hqs w (by simp [hw])) ?_
    have h3 := hstep.2.2
    simp only [List.length_cons] at hbound
    omega

set_option maxRecDepth 100000 in
/-- C8 witness: a freshly computed entry (cache `[0]`) survives 127
subsequent distinct lookups, through the amended theorem. -/
theorem c8_lru_retention_witness :
    0 ∈ (List.range' 1 127).foldl (lru_lookup 128) [0] :=
  c8_lru_retention [0] 0 (List.range' 1 127) (by decide) (by decide)
    (by decide) (by decide)
